import Mathlib

/-!
Verification development for the claude-profiles tool
(src/claude-profiles.mjs).  The definitions below are a shallow
embedding of the parts of the source relevant to the analysed
properties: the watch-mode debounce/throttle scheduler
(handleFileChange and its timers), the gist download path
(truncated-content fallback), the archive build/extract mapping, the
verification gates before store and restore, the restore copy-over
loop, and the change-detection hash.  Times are in milliseconds and
file contents are opaque byte strings, as in the source.
-/

namespace ClaudeProfiles

/-- File contents are modelled as opaque byte strings. -/
abbrev Bytes := String

/-- One entry of BACKUP_PATHS: a home-relative source path and the name
of its entry inside the archive. -/
structure BackupItem where
  source : String
  dest : String
deriving DecidableEq

/-- BACKUP_PATHS from the source (lines 110-114): the fixed set of
files and directories to back up and restore. -/
def BACKUP_PATHS : List BackupItem :=
  [⟨"~/.claude", ".claude"⟩,
   ⟨"~/.claude.json", ".claude.json"⟩,
   ⟨"~/.claude.json.backup", ".claude.json.backup"⟩]

/-- Whether a path string begins with a tilde followed by a slash,
computed on the underlying character list (the startsWith test of
expandHome in the source). -/
def startsTilde (filepath : String) : Bool :=
  match filepath.data with
  | c1 :: c2 :: _ => c1 == '~' && c2 == '/'
  | _ => false

/-- expandHome (lines 119-124): replace a leading tilde-slash with the
home directory (path.join of the home dir and the remainder). -/
def expandHome (home : String) (filepath : String) : String :=
  if startsTilde filepath then home ++ "/" ++ filepath.drop 2 else filepath

/-- Fixed name of the virtual macOS keychain-credentials entry inside
the archive (.macos.credentials.json in the source). -/
def credsEntryName : String := ".macos.credentials.json"

/-! ## Watch-mode scheduler (handleFileChange, lines 780-892)

The source keeps mutable closure variables lastSaveTime, pendingSave,
changeDetected, pendingSaveTimeout and saveCount.  The JavaScript event
loop is modelled as a step function over explicit events: a file-change
notification, a timer firing, and the completion of an asynchronous
saveProfileSilent call (the region between the await and the completion
is the in-flight window; other events interleave there).  Each
setTimeout call gets a fresh timer id; the variable pendingSaveTimeout
holds the id it was last assigned, and clearTimeout on an id that
already fired or was cancelled is a no-op, exactly as in the source. -/

/-- Mode of a save started by the scheduler: the immediate branch
(enough time since the last save) or the deferred throttled branch. -/
inductive SaveMode
  | immediate
  | deferred
deriving DecidableEq

/-- One in-flight saveProfileSilent call: its id, which branch started
it, and the value Date.now() had when it started. -/
structure SaveInfo where
  sid : Nat
  mode : SaveMode
  startedAt : Nat
deriving DecidableEq

/-- Kind of an armed setTimeout: the debounce settle timer or the
deferred throttle timer. -/
inductive TimerKind
  | debounce
  | throttle
deriving DecidableEq

/-- An armed timer: its id, kind, and absolute fire time. -/
structure TimerInfo where
  tid : Nat
  kind : TimerKind
  fireAt : Nat
deriving DecidableEq

/-- The mutable state of the watch loop: the closure variables of
watchProfile plus bookkeeping for armed timers and in-flight saves. -/
structure WState where
  lastSaveTime : Nat
  pendingSave : Bool
  changeDetected : Bool
  saveCount : Nat
  timerVar : Option Nat
  armed : List TimerInfo
  nextTid : Nat
  inFlight : List SaveInfo
  nextSid : Nat
deriving DecidableEq

/-- minSaveInterval = 30000 in the source (minimum 30 seconds between saves). -/
def minSaveInterval : Nat := 30000

/-- debounceDelay = 2000 in the source (wait 2 seconds after last change). -/
def debounceDelay : Nat := 2000

/-- External events driving the watch loop: a file-change notification
at time t, the timer with a given id firing at time t, and the
completion (successful or not) of the save with a given id at time t. -/
inductive WEvent
  | change (t : Nat)
  | fire (tid : Nat) (t : Nat)
  | complete (sid : Nat) (t : Nat) (ok : Bool)
deriving DecidableEq

/-- Observable actions of one scheduler step: a save starting, the
throttle baseline being recorded after a successful save, and the
deferred throttle timer being armed for a given absolute time. -/
inductive WAct
  | startSave (mode : SaveMode) (sid : Nat) (t : Nat)
  | recordBaseline (v : Nat)
  | armThrottle (fireAt : Nat)
deriving DecidableEq

/-- Initial watch state: lastSaveTime = 0, no pending save, no change
seen, no timers, no saves in flight. -/
def initWState : WState :=
  { lastSaveTime := 0, pendingSave := false, changeDetected := false,
    saveCount := 0, timerVar := none, armed := [], nextTid := 0,
    inFlight := [], nextSid := 0 }

/-- One step of the watch loop, mirroring handleFileChange and the two
timer callbacks of the source:
on a change, set changeDetected, clear the timer currently referenced
by pendingSaveTimeout and arm a fresh debounce timer;
on a debounce fire, return if no change was seen, otherwise clear the
flag and either start an immediate save (when at least minSaveInterval
has elapsed since lastSaveTime), or, when pendingSave is not yet set,
set it and arm the deferred timer for lastSaveTime + minSaveInterval
(now + timeToWait in the source), or do nothing at all;
on a throttle fire, start a deferred save if pendingSave is still set;
on completion of a save, update lastSaveTime (to the captured start
time in the immediate branch, to Date.now() in the deferred branch),
bump the counter and clear pendingSave on success; on failure the
immediate branch changes nothing and the deferred branch clears
pendingSave. -/
def stepA (s : WState) (e : WEvent) : WState × List WAct :=
  match e with
  | .change t =>
    let armed1 := match s.timerVar with
      | some tv => s.armed.filter (fun tm => tm.tid != tv)
      | none => s.armed
    ({ s with changeDetected := true,
              armed := armed1 ++ [⟨s.nextTid, .debounce, t + debounceDelay⟩],
              timerVar := some s.nextTid,
              nextTid := s.nextTid + 1 }, [])
  | .fire tid t =>
    match s.armed.find? (fun tm => tm.tid == tid) with
    | none => (s, [])
    | some tm =>
      let s1 := { s with armed := s.armed.filter (fun x => x.tid != tid) }
      match tm.kind with
      | .debounce =>
        if !s1.changeDetected then (s1, [])
        else
          let s2 := { s1 with changeDetected := false }
          if s2.lastSaveTime + minSaveInterval ≤ t then
            ({ s2 with inFlight := s2.inFlight ++ [⟨s2.nextSid, .immediate, t⟩],
                       nextSid := s2.nextSid + 1 },
             [.startSave .immediate s2.nextSid t])
          else if !s2.pendingSave then
            ({ s2 with pendingSave := true,
                       armed := s2.armed ++ [⟨s2.nextTid, .throttle, s2.lastSaveTime + minSaveInterval⟩],
                       timerVar := some s2.nextTid,
                       nextTid := s2.nextTid + 1 },
             [.armThrottle (s2.lastSaveTime + minSaveInterval)])
          else (s2, [])
      | .throttle =>
        if s1.pendingSave then
          ({ s1 with inFlight := s1.inFlight ++ [⟨s1.nextSid, .deferred, t⟩],
                     nextSid := s1.nextSid + 1 },
           [.startSave .deferred s1.nextSid t])
        else (s1, [])
  | .complete sid t ok =>
    match s.inFlight.find? (fun sv => sv.sid == sid) with
    | none => (s, [])
    | some sv =>
      let s1 := { s with inFlight := s.inFlight.filter (fun x => x.sid != sid) }
      if ok then
        match sv.mode with
        | .immediate =>
          ({ s1 with lastSaveTime := sv.startedAt, saveCount := s1.saveCount + 1,
                     pendingSave := false }, [.recordBaseline sv.startedAt])
        | .deferred =>
          ({ s1 with lastSaveTime := t, saveCount := s1.saveCount + 1,
                     pendingSave := false }, [.recordBaseline t])
      else
        match sv.mode with
        | .immediate => (s1, [])
        | .deferred => ({ s1 with pendingSave := false }, [])

/-- Run the watch loop from the initial state over a list of events. -/
def runW (events : List WEvent) : WState :=
  events.foldl (fun s e => (stepA s e).1) initWState

/-! ## Transfer protocol download (restoreProfile lines 1473-1483 and
verifyProfile lines 535-545)

Both call sites read the file record of the gist API response and
either trust the inline content field or, when the record is flagged
truncated, fetch the raw URL with curl; both trim the resulting
string. -/

/-- The fields of one file record in the gist API response that the
download path looks at. -/
structure GistFileData where
  truncated : Bool
  content : String
  raw_url : String
deriving DecidableEq

/-- The shared download logic of restoreProfile and verifyProfile: when
the record is truncated, the base64 payload is the trimmed result of
fetching the raw URL; otherwise it is the trimmed inline content. -/
def downloadBase64 (fd : GistFileData) (fetchRaw : String → String) : String :=
  if fd.truncated then (fetchRaw fd.raw_url).trim else fd.content.trim

/-! ## Archive codec (saveProfile lines 1214-1266, saveProfileSilent
lines 989-1032, extraction in restoreProfile lines 1514-1520)

The on-disk state of one configured source path is absent, a regular
file with contents, or a directory holding a list of files keyed by
their relative component paths.  The archive is modelled as the list
of entries the archiver calls produce, each a component path paired
with contents; extraction writes every entry under the destination
directory. -/

/-- State of one configured source path on disk. -/
inductive SourceState
  | absent
  | file (c : Bytes)
  | dir (files : List (List String × Bytes))
deriving DecidableEq

/-- Whether fs.stat succeeds on the path (file or directory). -/
def SourceState.isPresent : SourceState → Bool
  | SourceState.absent => false
  | _ => true

/-- The archive entries contributed by one source: nothing when the
path is absent, a single entry named by the configured dest for a
file, and one entry per contained file under the dest prefix for a
directory (archive.file and archive.directory in the source). -/
def sourceEntries (dest : String) : SourceState → List (List String × Bytes)
  | SourceState.absent => []
  | SourceState.file c => [([dest], c)]
  | SourceState.dir files => files.map fun e => (dest :: e.1, e.2)

/-- The full archive produced by a save: the entries of every
configured backup path in order, followed by the fixed virtual
keychain-credentials entry when running on darwin with keychain
credentials present. -/
def buildEntries (darwin : Bool) (home : String) (fs : String → SourceState)
    (keychain : Option Bytes) : List (List String × Bytes) :=
  (BACKUP_PATHS.flatMap fun item => sourceEntries item.dest (fs (expandHome home item.source)))
  ++ (if darwin then
        match keychain with
        | some kc => [([credsEntryName], kc)]
        | none => []
      else [])

/-- Extraction of an archive into a destination directory: every entry
is written at the destination prefix followed by its entry path
(unzip -d in the source). -/
def extractTo (entries : List (List String × Bytes)) (dirP : List String) :
    List (List String × Bytes) :=
  entries.map fun e => (dirP ++ e.1, e.2)

/-- First-match lookup of an entry path in an entry list. -/
def flookup (k : List String) : List (List String × Bytes) → Option Bytes
  | [] => none
  | e :: rest => if e.1 = k then some e.2 else flookup k rest

/-- The hasFiles flag of saveProfile (lines 1215-1251): set when any
configured backup path exists, or when keychain credentials were added
on darwin. -/
def hasFiles (darwin : Bool) (home : String) (fs : String → SourceState)
    (keychain : Option Bytes) : Bool :=
  (BACKUP_PATHS.any fun item => (fs (expandHome home item.source)).isPresent)
    || (darwin && keychain.isSome)

/-! ## Verification gates (verifyLocalFiles lines 416-498,
verifyDownloadedProfile lines 1366-1427, verifyProfile checks
lines 577-659) -/

/-- Result of a verification gate: the validity flag and the collected
issue list. -/
structure Verification where
  valid : Bool
  issues : List String
deriving DecidableEq

/-- One check of verifyLocalFiles: an absolute path, whether it is
essential, its description, and whether it is skipped when keychain
credentials exist. -/
structure LocalCheck where
  path : String
  essential : Bool
  description : String
  skipIfKeychainExists : Bool

/-- The checks list of verifyLocalFiles: the credentials file
(essential except on darwin, skipped when keychain credentials exist),
the configuration file (always essential), and the optional backup. -/
def localChecks (darwin : Bool) (home : String) : List LocalCheck :=
  [⟨expandHome home "~/.claude/.credentials.json", !darwin, "Claude credentials (file)", darwin⟩,
   ⟨expandHome home "~/.claude.json", true, "Claude configuration", false⟩,
   ⟨expandHome home "~/.claude.json.backup", false, "Configuration backup", false⟩]

/-- One iteration of the verifyLocalFiles loop: skip the check when it
is keychain-covered, accept a present path, and otherwise invalidate
and record an issue only when the check is essential (a missing
optional path only warns). -/
def localCheckStep (hasKeychainCreds : Bool) (fs : String → SourceState)
    (acc : Verification) (check : LocalCheck) : Verification :=
  if check.skipIfKeychainExists && hasKeychainCreds then acc
  else if (fs check.path).isPresent then acc
  else if check.essential then
    { valid := false, issues := acc.issues ++ ["Missing required file: " ++ check.description] }
  else acc

/-- verifyLocalFiles: fold the checks over the live local state; the
keychain flag is set only on darwin when credentials were found. -/
def verifyLocalFiles (darwin : Bool) (home : String) (fs : String → SourceState)
    (keychain : Option Bytes) : Verification :=
  (localChecks darwin home).foldl (localCheckStep (darwin && keychain.isSome) fs)
    { valid := true, issues := [] }

/-- One check of verifyDownloadedProfile: a path relative to the
extraction directory, whether it is essential, and its description. -/
structure DLCheck where
  rel : List String
  essential : Bool
  description : String

/-- The checks list of verifyDownloadedProfile: the plain credentials
file entry (essential except on darwin), the virtual macOS credentials
entry (essential only on darwin), and the configuration entry (always
essential). -/
def dlChecks (darwin : Bool) : List DLCheck :=
  [⟨[".claude", ".credentials.json"], !darwin, "Claude credentials (file)"⟩,
   ⟨[credsEntryName], darwin, "Claude credentials (macOS)"⟩,
   ⟨[".claude.json"], true, "Claude configuration"⟩]

/-- One iteration of the verifyDownloadedProfile loop: a present file
entry passes; a missing or non-file entry invalidates and records an
issue only when essential. -/
def dlCheckStep (tree : List (List String × Bytes)) (acc : Verification)
    (check : DLCheck) : Verification :=
  if (flookup check.rel tree).isSome then acc
  else if check.essential then
    { valid := false, issues := acc.issues ++ ["Missing: " ++ check.description] }
  else acc

/-- verifyDownloadedProfile: a failed extraction yields an invalid
result with the extraction issue; otherwise the checks are folded over
the extracted tree. -/
def verifyDownloadedProfile (darwin : Bool) (extractOk : Bool)
    (tree : List (List String × Bytes)) : Verification :=
  if !extractOk then { valid := false, issues := ["Failed to extract profile archive"] }
  else (dlChecks darwin).foldl (dlCheckStep tree) { valid := true, issues := [] }

/-- One check of the standalone verifyProfile command: a relative path,
whether it is essential, and whether it is the directory check. -/
structure VPCheck where
  rel : List String
  essential : Bool
  isDirectory : Bool

/-- The checks list of the standalone verifyProfile command: the
credentials file and the configuration file are unconditionally
essential; the backup file and the directory check are optional. -/
def vpChecks : List VPCheck :=
  [⟨[".claude", ".credentials.json"], true, false⟩,
   ⟨[".claude.json"], true, false⟩,
   ⟨[".claude.json.backup"], false, false⟩,
   ⟨[".claude"], false, true⟩]

/-- One iteration of the verifyProfile checks loop, tracking the
hasEssentialFiles flag: the directory check never touches it; a
missing or non-file entry clears it only when essential. -/
def vpCheckStep (tree : List (List String × Bytes)) (acc : Bool) (check : VPCheck) : Bool :=
  if check.isDirectory then acc
  else if (flookup check.rel tree).isSome then acc
  else acc && !check.essential

/-- The hasEssentialFiles result of the standalone verifyProfile
command over an extracted tree. -/
def verifyProfileEssentials (tree : List (List String × Bytes)) : Bool :=
  vpChecks.foldl (vpCheckStep tree) true

/-! ## Store operations (saveProfile lines 1165-1361, saveProfileSilent
lines 989-1086) -/

/-- Error outcomes of a store operation that the analysed claims
distinguish. -/
inductive StoreErr
  | verificationFailed (issues : List String)
  | noContent
deriving DecidableEq

/-- Remote-facing actions of a store operation. -/
inductive StoreAct
  | upload (entries : List (List String × Bytes))
deriving DecidableEq

/-- The interactive store operation: the verification gate runs first
and a failure exits before the archive is built or uploaded; then the
hasFiles check exits before upload; otherwise the archive is built and
uploaded. -/
def saveProfileRun (darwin : Bool) (home : String) (fs : String → SourceState)
    (keychain : Option Bytes) : List StoreAct × Option StoreErr :=
  let v := verifyLocalFiles darwin home fs keychain
  if !v.valid then ([], some (StoreErr.verificationFailed v.issues))
  else if !hasFiles darwin home fs keychain then ([], some StoreErr.noContent)
  else ([StoreAct.upload (buildEntries darwin home fs keychain)], none)

/-- The silent watch-mode save: it builds and uploads the archive
unconditionally, with no verification gate and no content check. -/
def saveProfileSilentRun (darwin : Bool) (home : String) (fs : String → SourceState)
    (keychain : Option Bytes) : List StoreAct :=
  [StoreAct.upload (buildEntries darwin home fs keychain)]

/-! ## Restore copy-over (restoreProfile lines 1522-1548)

The local file system is a map from component paths to nothing, a
regular file with contents, or a directory.  For each backup item the
loop stats the extracted entry: a directory is copied with cp -r to
the expanded destination, a file with copyFile.  When the destination
of cp -r already exists as a directory, cp copies the source INTO it,
that is, under destination slash basename of the source; when the
destination does not exist the source is copied to the destination
itself; cp refuses to overwrite a non-directory with a directory. -/

/-- A node of the local file system: a regular file or a directory. -/
inductive FNode
  | file (c : Bytes)
  | dir
deriving DecidableEq

/-- The extracted entries lying strictly below a given top-level entry
name, keyed by their remaining relative path. -/
def treeDirEntries (tree : List (List String × Bytes)) (d : String) :
    List (List String × Bytes) :=
  tree.filterMap fun e =>
    match e.1 with
    | [] => none
    | x :: rest => if x = d ∧ rest ≠ [] then some (rest, e.2) else none

/-- The file writes performed for one backup item by the restore loop:
the destination is the expanded home path of the item (its source
without the leading tilde-slash); a directory entry is copied with
cp -r (nested one level deeper when the destination already exists as
a directory, skipped when a non-directory occupies it), and a file
entry is copied over the destination path. -/
def cpTargets (home : List String) (lfs : List String → Option FNode)
    (tree : List (List String × Bytes)) (item : BackupItem) :
    List (List String × Bytes) :=
  let dst := home ++ [item.source.drop 2]
  let des := treeDirEntries tree item.dest
  if des ≠ [] then
    match lfs dst with
    | some FNode.dir => des.map fun e => (dst ++ item.dest :: e.1, e.2)
    | some (FNode.file _) => []
    | none => des.map fun e => (dst ++ e.1, e.2)
  else
    match flookup [item.dest] tree with
    | some c => [(dst, c)]
    | none => []

/-- Apply a list of file writes to the local file system. -/
def writeAll (lfs : List String → Option FNode) (ws : List (List String × Bytes)) :
    List String → Option FNode :=
  fun p =>
    match flookup p ws with
    | some c => some (FNode.file c)
    | none => lfs p

/-- The restore copy-over loop: the writes of every backup item applied
to the local file system. -/
def restoreCopy (home : List String) (lfs : List String → Option FNode)
    (tree : List (List String × Bytes)) : List String → Option FNode :=
  writeAll lfs (BACKUP_PATHS.flatMap (cpTargets home lfs tree))

/-- The restore operation: the downloaded archive is verified first and
a failure aborts with the issue list, leaving the local file system
untouched; otherwise the copy-over loop runs. -/
def restoreRun (darwin : Bool) (home : List String) (lfs : List String → Option FNode)
    (tree : List (List String × Bytes)) (extractOk : Bool) :
    (List String → Option FNode) × Option StoreErr :=
  let v := verifyDownloadedProfile darwin extractOk tree
  if !v.valid then (lfs, some (StoreErr.verificationFailed v.issues))
  else (restoreCopy home lfs tree, none)

/-! ## Change-detection hash (calculateFilesHash lines 712-757)

The digest is modelled as the list of update chunks fed to the sha256
object, so two runs agree on the digest exactly when they agree on the
chunk list.  For a directory the source sorts the recursive listing in
place, feeds the sorted names joined by a pipe, and then, iterating
the sorted array, reads each regular file.  The content reader is a
function of the name, representing the fixed on-disk state; the
listing order is the traversal order readdir happened to return. -/

/-- Lexicographic comparison of character lists by code point,
modelling the default JavaScript string sort order. -/
def charListLe : List Char → List Char → Bool
  | [], _ => true
  | _ :: _, [] => false
  | a :: as, b :: bs =>
    if a.val.toNat < b.val.toNat then true
    else if b.val.toNat < a.val.toNat then false
    else charListLe as bs

/-- Lexicographic order on strings, as a relation. -/
def strLe (a b : String) : Prop := charListLe a.data b.data = true

instance : DecidableRel strLe :=
  fun a b => inferInstanceAs (Decidable (charListLe a.data b.data = true))

/-- The in-place sort of the listing (files.sort() in the source). -/
def jsSortStrings (l : List String) : List String := l.insertionSort strLe

/-- One update chunk fed to the hash: a string or raw file bytes. -/
inductive HChunk
  | s (v : String)
  | b (v : Bytes)
deriving DecidableEq

/-- State of one configured source path as seen by the hash scan: for
a directory, the recursive listing in traversal order together with
the content reader (none for subdirectories and unreadable files). -/
inductive HSource
  | absent
  | file (c : Bytes)
  | dir (names : List String) (content : String → Option Bytes)

/-- Join a list of strings with a pipe separator (join in the source). -/
def joinPipe : List String → String
  | [] => ""
  | [x] => x
  | x :: y :: rest => x ++ "|" ++ joinPipe (y :: rest)

/-- The chunks contributed by one directory source: the sorted names
joined by a pipe, then the contents of each readable regular file in
sorted order (the source sorts the array in place, so the content loop
also runs in sorted order). -/
def dirChunks (names : List String) (content : String → Option Bytes) : List HChunk :=
  HChunk.s (joinPipe (jsSortStrings names))
    :: (jsSortStrings names).filterMap (fun n => (content n).map HChunk.b)

/-- The chunks contributed by one source path: nothing when absent, the
raw bytes for a file, and the directory chunks for a directory. -/
def sourceChunks : HSource → List HChunk
  | HSource.absent => []
  | HSource.file c => [HChunk.b c]
  | HSource.dir names content => dirChunks names content

/-- calculateFilesHash: the chunks of every configured backup path in
order, followed by the serialized keychain credentials on darwin when
present. -/
def calculateFilesHash (darwin : Bool) (home : String) (st : String → HSource)
    (keychain : Option String) : List HChunk :=
  (BACKUP_PATHS.flatMap fun item => sourceChunks (st (expandHome home item.source)))
  ++ (if darwin then
        match keychain with
        | some kc => [HChunk.s kc]
        | none => []
      else [])

/-- Two hash-scan views describe the same on-disk state when they agree
on every source up to the order of directory listings: same absence,
same file contents, same content reader, and listings that are
permutations of each other. -/
def HSource.equiv : HSource → HSource → Prop
  | HSource.absent, HSource.absent => True
  | HSource.file c1, HSource.file c2 => c1 = c2
  | HSource.dir n1 f1, HSource.dir n2 f2 => n1.Perm n2 ∧ f1 = f2
  | _, _ => False

/-- Content reader of the concrete directory used by the hash witness. -/
def exContent : String → Option Bytes := fun n =>
  if n = "a.json" then some ("AA") else if n = "b.json" then some ("BB") else none

/-- Concrete hash-scan view whose directory listing arrives in one
traversal order. -/
def exState1 : String → HSource := fun p =>
  if p = "/h/.claude" then HSource.dir ["b.json", "a.json"] exContent
  else if p = "/h/.claude.json" then HSource.file ("CFG")
  else HSource.absent

/-- The same on-disk state with the directory listing in the opposite
traversal order. -/
def exState2 : String → HSource := fun p =>
  if p = "/h/.claude" then HSource.dir ["a.json", "b.json"] exContent
  else if p = "/h/.claude.json" then HSource.file ("CFG")
  else HSource.absent

/-- Concrete local state used by the round-trip witness: the
configuration directory holds one file and the configuration file
exists. -/
def exFS : String → SourceState := fun p =>
  if p = "/h/.claude" then SourceState.dir [(["s.json"], ("A"))]
  else if p = "/h/.claude.json" then SourceState.file ("B")
  else SourceState.absent

/-! ## Helper lemmas -/

theorem flookup_append {k : List String} {l1 l2 : List (List String × Bytes)} :
    flookup k (l1 ++ l2) = ((flookup k l1).or (flookup k l2)) := by
  induction l1 with
  | nil => simp [flookup]
  | cons e rest ih =>
    by_cases h : e.1 = k
    · simp [flookup, h]
    · simp [flookup, h, ih]

theorem flookup_eq_none {k : List String} {l : List (List String × Bytes)}
    (h : ∀ e ∈ l, e.1 ≠ k) : flookup k l = none := by
  induction l with
  | nil => rfl
  | cons e rest ih =>
    simp only [flookup, if_neg (h e (List.mem_cons_self e rest))]
    exact ih (fun x hx => h x (List.mem_cons_of_mem e hx))

theorem flookup_map_cons {d : String} {k : List String} {files : List (List String × Bytes)} :
    flookup (d :: k) (files.map fun e => (d :: e.1, e.2)) = flookup k files := by
  induction files with
  | nil => rfl
  | cons e rest ih =>
    by_cases h : e.1 = k
    · simp [flookup, h]
    · have hne : d :: e.1 ≠ d :: k := fun hc => h (List.cons_inj_right d |>.mp hc)
      simp only [List.map_cons, flookup, if_neg hne, if_neg h]
      exact ih

theorem flookup_mem_nodup {files : List (List String × Bytes)} {k : List String} {c : Bytes}
    (hm : (k, c) ∈ files) (hnd : (files.map Prod.fst).Nodup) : flookup k files = some c := by
  induction files with
  | nil => simp at hm
  | cons e rest ih =>
    rcases List.mem_cons.mp hm with heq | hmem
    · rw [← heq]; simp [flookup]
    · have hne : e.1 ≠ k := by
        intro hc
        have hk : k ∈ rest.map Prod.fst := List.mem_map.mpr ⟨(k, c), hmem, rfl⟩
        rw [List.map_cons, List.nodup_cons] at hnd
        exact hnd.1 (hc ▸ hk)
      simp only [flookup, if_neg hne]
      exact ih hmem ((List.map_cons Prod.fst e rest ▸ hnd).of_cons)

theorem flookup_extract {entries : List (List String × Bytes)} {dirP k : List String} :
    flookup (dirP ++ k) (extractTo entries dirP) = flookup k entries := by
  induction entries with
  | nil => rfl
  | cons e rest ih =>
    by_cases h : e.1 = k
    · simp [extractTo, flookup, h]
    · have hne : dirP ++ e.1 ≠ dirP ++ k := by simp [h]
      simp only [extractTo, List.map_cons, flookup, if_neg hne, if_neg h]
      exact ih

theorem sourceEntries_keys {dest : String} {st : SourceState} :
    ∀ e ∈ sourceEntries dest st, ∃ rest, e.1 = dest :: rest := by
  intro e he
  cases st with
  | absent => simp [sourceEntries] at he
  | file c =>
    simp only [sourceEntries, List.mem_singleton] at he
    exact ⟨[], by rw [he]⟩
  | dir files =>
    simp only [sourceEntries, List.mem_map] at he
    obtain ⟨x, _, hx⟩ := he
    exact ⟨x.1, by rw [← hx]⟩

theorem flookup_sourceEntries_ne {dest : String} {st : SourceState} {k : List String}
    (hk : ∀ rest, k ≠ dest :: rest) : flookup k (sourceEntries dest st) = none := by
  refine flookup_eq_none ?_
  intro e he
  obtain ⟨rest, hr⟩ := sourceEntries_keys e he
  rw [hr]
  exact fun hc => hk rest hc.symm

theorem cons_ne_of_ne {a b : String} (h : a ≠ b) (k rest : List String) :
    a :: k ≠ b :: rest := by
  intro hc
  injection hc with h1 _
  exact h h1

theorem localCheckStep_config_invalid (b : Bool) (fs : String → SourceState)
    (acc : Verification) (home : String)
    (h : (fs (expandHome home "~/.claude.json")).isPresent = false) :
    (localCheckStep b fs acc
      ⟨expandHome home "~/.claude.json", true, "Claude configuration", false⟩).valid = false := by
  simp [localCheckStep, h]

theorem localCheckStep_backup_valid (b : Bool) (fs : String → SourceState)
    (acc : Verification) (home : String) :
    (localCheckStep b fs acc
      ⟨expandHome home "~/.claude.json.backup", false, "Configuration backup", false⟩).valid
      = acc.valid := by
  simp only [localCheckStep]
  by_cases h : (fs (expandHome home "~/.claude.json.backup")).isPresent <;> simp [h]

theorem dlCheckStep_valid (tree : List (List String × Bytes)) (acc : Verification)
    (check : DLCheck) :
    (dlCheckStep tree acc check).valid
      = (acc.valid && (!check.essential || (flookup check.rel tree).isSome)) := by
  simp only [dlCheckStep]
  by_cases h : (flookup check.rel tree).isSome
  · simp [h]
  · cases he : check.essential <;> simp [h, he]

theorem dlCheckStep_issues_mono (tree : List (List String × Bytes)) (acc : Verification)
    (check : DLCheck) {x : String} (h : x ∈ acc.issues) :
    x ∈ (dlCheckStep tree acc check).issues := by
  simp only [dlCheckStep]
  by_cases h1 : (flookup check.rel tree).isSome
  · simp [h1, h]
  · cases he : check.essential <;> simp [h1, he, h]

theorem dlCheckStep_issues_add (tree : List (List String × Bytes)) (acc : Verification)
    (check : DLCheck) (he : check.essential = true)
    (h : flookup check.rel tree = none) :
    ("Missing: " ++ check.description) ∈ (dlCheckStep tree acc check).issues := by
  simp [dlCheckStep, h, he]

theorem vpCheckStep_eq (tree : List (List String × Bytes)) (acc : Bool) (check : VPCheck) :
    vpCheckStep tree acc check
      = (acc && (check.isDirectory || !check.essential || (flookup check.rel tree).isSome)) := by
  simp only [vpCheckStep]
  by_cases h1 : check.isDirectory
  · simp [h1]
  · by_cases h2 : (flookup check.rel tree).isSome
    · simp [h1, h2]
    · cases he : check.essential <;> simp [h1, h2, he]

theorem charListLe_cons_iff {a b : Char} {as bs : List Char} :
    charListLe (a :: as) (b :: bs) = true ↔
      (a.val.toNat < b.val.toNat
       ∨ (a.val.toNat = b.val.toNat ∧ charListLe as bs = true)) := by
  simp only [charListLe]
  by_cases h1 : a.val.toNat < b.val.toNat
  · simp [h1]
  · by_cases h2 : b.val.toNat < a.val.toNat
    · simp [h1, h2]; omega
    · have h3 : a.val.toNat = b.val.toNat := by omega
      simp [h1, h2, h3]

theorem charListLe_total : ∀ as bs, charListLe as bs = true ∨ charListLe bs as = true := by
  intro as
  induction as with
  | nil => intro bs; left; rfl
  | cons a as ih =>
    intro bs
    cases bs with
    | nil => right; rfl
    | cons b bs =>
      rw [charListLe_cons_iff, charListLe_cons_iff]
      rcases ih bs with h | h
      · by_cases hab : a.val.toNat < b.val.toNat
        · left; left; exact hab
        · by_cases hba : b.val.toNat < a.val.toNat
          · right; left; exact hba
          · left; right; exact ⟨by omega, h⟩
      · by_cases hba : b.val.toNat < a.val.toNat
        · right; left; exact hba
        · by_cases hab : a.val.toNat < b.val.toNat
          · left; left; exact hab
          · right; right; exact ⟨by omega, h⟩

theorem charListLe_trans : ∀ as bs cs, charListLe as bs = true → charListLe bs cs = true →
    charListLe as cs = true := by
  intro as
  induction as with
  | nil => intro bs cs h1 h2; rfl
  | cons a as ih =>
    intro bs cs h1 h2
    cases bs with
    | nil => simp [charListLe] at h1
    | cons b bs =>
      cases cs with
      | nil => simp [charListLe] at h2
      | cons c cs =>
        rw [charListLe_cons_iff] at h1 h2 ⊢
        rcases h1 with h1 | ⟨h1e, h1r⟩ <;> rcases h2 with h2 | ⟨h2e, h2r⟩
        · left; omega
        · left; omega
        · left; omega
        · right; exact ⟨by omega, ih bs cs h1r h2r⟩

theorem char_eq_of_toNat_eq {a b : Char} (h : a.val.toNat = b.val.toNat) : a = b :=
  Char.ext (UInt32.ext h)

theorem charListLe_antisymm : ∀ as bs, charListLe as bs = true → charListLe bs as = true →
    as = bs := by
  intro as
  induction as with
  | nil =>
    intro bs h1 h2
    cases bs with
    | nil => rfl
    | cons b bs => simp [charListLe] at h2
  | cons a as ih =>
    intro bs h1 h2
    cases bs with
    | nil => simp [charListLe] at h1
    | cons b bs =>
      rw [charListLe_cons_iff] at h1 h2
      rcases h1 with h1 | ⟨h1e, h1r⟩ <;> rcases h2 with h2 | ⟨h2e, h2r⟩
      · omega
      · omega
      · omega
      · rw [char_eq_of_toNat_eq h1e, ih bs h1r h2r]

theorem jsSortStrings_congr {l1 l2 : List String} (h : l1.Perm l2) :
    jsSortStrings l1 = jsSortStrings l2 := by
  have ha : IsAntisymm String strLe :=
    ⟨fun a b h1 h2 => String.ext (charListLe_antisymm a.data b.data h1 h2)⟩
  have ht : IsTotal String strLe := ⟨fun a b => charListLe_total a.data b.data⟩
  have htr : IsTrans String strLe :=
    ⟨fun a b c h1 h2 => charListLe_trans a.data b.data c.data h1 h2⟩
  exact @List.eq_of_perm_of_sorted _ strLe ha _ _
    ((List.perm_insertionSort strLe l1).trans (h.trans (List.perm_insertionSort strLe l2).symm))
    (@List.sorted_insertionSort _ strLe _ ht htr l1)
    (@List.sorted_insertionSort _ strLe _ ht htr l2)

theorem sourceChunks_congr {s1 s2 : HSource} (h : HSource.equiv s1 s2) :
    sourceChunks s1 = sourceChunks s2 := by
  cases s1 <;> cases s2 <;> simp only [HSource.equiv] at h
  · rfl
  · rw [h]
  case dir.dir n1 f1 n2 f2 =>
    rcases h with ⟨hp, hf⟩
    subst hf
    simp only [sourceChunks, dirChunks, jsSortStrings_congr hp]

/-! ## Claims -/

/-- Claim C1: the claim states that no two executions of
saveProfileSilent are ever in flight concurrently.  The code has no
in-flight guard: in the trace below a change arrives at t=100000, the
debounce timer fires at t=102000 and starts save 0; a further change
at t=103000 arms a new debounce timer which fires at t=105000 while
save 0 has not completed, and the callback starts save 1 because
lastSaveTime is still the stale value 0.  The final state has both
saves in flight simultaneously, so the single-flight property fails on
the code. -/
theorem c1_two_saves_in_flight :
    (runW [WEvent.change 100000, WEvent.fire 0 102000, WEvent.change 103000,
           WEvent.fire 1 105000]).inFlight
      = [⟨0, SaveMode.immediate, 102000⟩, ⟨1, SaveMode.immediate, 105000⟩] := by
  decide

/-- Claim C2 counterexample: the claim says the throttle baseline
recorded after a successful save is the completion timestamp, that no
entry into Saving begins before completion + 30000, and that the
latest change is still eventually saved.  In trace A a save starts at
102000 and completes at 107000, yet the recorded baseline is 102000
(the start time, not the completion time 107000), and a new save is
entered at 132000, which is before 107000 + 30000 = 137000.  In trace
B a change at 113000 cancels the armed deferred timer; the follow-up
debounce fire at 115000 is inside the throttle window with pendingSave
already set, so no timer is rearmed: the final state has pendingSave
set but no armed timer and no save in flight, and the accumulated
change is never saved without a further external notification. -/
theorem c2_counterexample :
    ((runW [WEvent.change 100000, WEvent.fire 0 102000, WEvent.complete 0 107000 true,
            WEvent.change 130000, WEvent.fire 1 132000]).lastSaveTime = 102000
   ∧ (runW [WEvent.change 100000, WEvent.fire 0 102000, WEvent.complete 0 107000 true,
            WEvent.change 130000, WEvent.fire 1 132000]).inFlight
        = [⟨1, SaveMode.immediate, 132000⟩]
   ∧ 132000 < 107000 + minSaveInterval)
  ∧ (let s := runW [WEvent.change 100000, WEvent.fire 0 102000,
                    WEvent.complete 0 103000 true, WEvent.change 110000,
                    WEvent.fire 1 112000, WEvent.change 113000, WEvent.fire 3 115000]
     s.pendingSave = true ∧ s.armed = [] ∧ s.inFlight = [] ∧ s.saveCount = 1) := by
  decide

/-- Claim C2 amended: every entry into the immediate Saving branch
happens at least minSaveInterval after the recorded throttle baseline;
the deferred timer is always armed for exactly baseline plus
minSaveInterval; and on a successful completion the new baseline is the
captured start time in the immediate branch and the completion time in
the deferred branch (so the baseline is not always the completion
timestamp). -/
theorem c2_amended : ∀ (s : WState) (e : WEvent),
    (∀ sid t, WAct.startSave SaveMode.immediate sid t ∈ (stepA s e).2 →
       s.lastSaveTime + minSaveInterval ≤ t)
  ∧ (∀ ft, WAct.armThrottle ft ∈ (stepA s e).2 → ft = s.lastSaveTime + minSaveInterval)
  ∧ (∀ sid t sv, e = WEvent.complete sid t true →
       s.inFlight.find? (fun x => x.sid == sid) = some sv →
       (stepA s e).1.lastSaveTime
         = (match sv.mode with | SaveMode.immediate => sv.startedAt | SaveMode.deferred => t)) := by
  intro s e
  refine ⟨?_, ?_, ?_⟩
  · intro sid t hmem
    cases e <;> dsimp only [stepA] at hmem <;> (repeat' split at hmem) <;> simp_all
  · intro ft hmem
    cases e <;> dsimp only [stepA] at hmem <;> (repeat' split at hmem) <;> simp_all
  · intro sid t sv he hfind
    subst he
    dsimp only [stepA]
    rw [hfind]
    cases hm : sv.mode <;> simp [hm]

/-- Claim C2 witness: the amended theorem applied at concrete inputs:
a debounce fire at 102000 with baseline 0 starting an immediate save
gives minSaveInterval at most 102000, and completing the immediate
save that started at 102000 records baseline 102000. -/
theorem c2_amended_witness :
    minSaveInterval ≤ 102000
  ∧ (stepA { initWState with inFlight := [⟨0, SaveMode.immediate, 102000⟩], nextSid := 1 }
       (WEvent.complete 0 107000 true)).1.lastSaveTime = 102000 := by
  refine ⟨?_, ?_⟩
  · have h := (c2_amended
      { initWState with changeDetected := true,
                        armed := [⟨0, TimerKind.debounce, 102000⟩], nextTid := 1 }
      (WEvent.fire 0 102000)).1 0 102000 (by decide)
    simpa using h
  · exact (c2_amended _ _).2.2 0 107000 ⟨0, SaveMode.immediate, 102000⟩ rfl (by decide)

/-- Claim C3 counterexample: the claim says a failed save clears
neither the pending flag nor the baseline in both branches.  In this
trace a first save completes at 103000 (baseline 102000); a change at
110000 leads to a deferred save scheduled at 132000 which starts and
then fails at 140000.  The catch handler of the deferred branch sets
pendingSave to false, so the pending flag IS cleared there,
contradicting the claim (the baseline 102000 is indeed left
unchanged). -/
theorem c3_counterexample :
    (let s := runW [WEvent.change 100000, WEvent.fire 0 102000,
                    WEvent.complete 0 103000 true, WEvent.change 110000,
                    WEvent.fire 1 112000, WEvent.fire 2 132000,
                    WEvent.complete 1 140000 false]
     s.pendingSave = false ∧ s.lastSaveTime = 102000) := by
  decide

/-- Claim C3 amended: on a failed save completion the throttle baseline
is never updated; the pending flag is left untouched by the immediate
branch but is cleared by the catch handler of the deferred branch. -/
theorem c3_amended : ∀ (s : WState) (sid t : Nat) (sv : SaveInfo),
    s.inFlight.find? (fun x => x.sid == sid) = some sv →
    ((stepA s (WEvent.complete sid t false)).1.lastSaveTime = s.lastSaveTime
  ∧ (sv.mode = SaveMode.immediate →
       (stepA s (WEvent.complete sid t false)).1.pendingSave = s.pendingSave)
  ∧ (sv.mode = SaveMode.deferred →
       (stepA s (WEvent.complete sid t false)).1.pendingSave = false)) := by
  intro s sid t sv hfind
  dsimp only [stepA]
  rw [hfind]
  cases hm : sv.mode <;> simp [hm]

/-- Claim C3 witness: the amended theorem applied to a concrete failing
deferred save: the baseline stays 102000 and pendingSave is cleared. -/
theorem c3_amended_witness :
    (stepA { initWState with inFlight := [⟨1, SaveMode.deferred, 132000⟩], nextSid := 2,
                             lastSaveTime := 102000, pendingSave := true }
       (WEvent.complete 1 140000 false)).1.lastSaveTime = 102000
  ∧ (stepA { initWState with inFlight := [⟨1, SaveMode.deferred, 132000⟩], nextSid := 2,
                             lastSaveTime := 102000, pendingSave := true }
       (WEvent.complete 1 140000 false)).1.pendingSave = false := by
  refine ⟨?_, ?_⟩
  · exact (c3_amended _ 1 140000 ⟨1, SaveMode.deferred, 132000⟩ (by decide)).1
  · exact (c3_amended _ 1 140000 ⟨1, SaveMode.deferred, 132000⟩ (by decide)).2.2 rfl

/-- Claim C4: whenever the remote read response is flagged truncated,
the returned payload is the one fetched from the raw-content locator
and is independent of the inline content field; whenever it is not
truncated, the inline content field is used. -/
theorem c4_truncated_fallback : ∀ (fd : GistFileData) (fetchRaw : String → String),
    (fd.truncated = true →
       downloadBase64 fd fetchRaw = (fetchRaw fd.raw_url).trim
     ∧ ∀ c, downloadBase64 { fd with content := c } fetchRaw = downloadBase64 fd fetchRaw)
  ∧ (fd.truncated = false → downloadBase64 fd fetchRaw = fd.content.trim) := by
  intro fd fetchRaw
  refine ⟨fun h => ⟨?_, fun c => ?_⟩, fun h => ?_⟩ <;> simp [downloadBase64, h]

/-- Claim C4 witness: a truncated record with inline content and a raw
locator downloads the fetched raw data, not the inline content; a
non-truncated record uses the inline content. -/
theorem c4_truncated_fallback_witness :
    downloadBase64 ⟨true, "inline", "u"⟩ (fun loc => loc ++ "-raw") = ("u-raw").trim
  ∧ downloadBase64 ⟨false, "inline", "u"⟩ (fun loc => loc ++ "-raw") = ("inline").trim := by
  refine ⟨?_, ?_⟩
  · exact ((c4_truncated_fallback ⟨true, "inline", "u"⟩ (fun loc => loc ++ "-raw")).1 rfl).1
  · exact (c4_truncated_fallback ⟨false, "inline", "u"⟩ (fun loc => loc ++ "-raw")).2 rfl

/-- Claim C5: building the archive from the local state and extracting
it into a destination directory reproduces, under that directory, the
content of every existing source byte for byte at its configured entry
name: a file source at the entry named by its dest, every file of a
directory source under the dest prefix at its relative path, and the
virtual keychain-credentials entry at its fixed name when present. -/
theorem c5_roundtrip : ∀ (darwin : Bool) (home : String) (fs : String → SourceState)
    (keychain : Option Bytes) (dirP : List String),
    (∀ item ∈ BACKUP_PATHS,
      (∀ c, fs (expandHome home item.source) = SourceState.file c →
        flookup (dirP ++ [item.dest])
          (extractTo (buildEntries darwin home fs keychain) dirP) = some c)
    ∧ (∀ files rel c, fs (expandHome home item.source) = SourceState.dir files →
        (files.map Prod.fst).Nodup → (rel, c) ∈ files →
        flookup (dirP ++ item.dest :: rel)
          (extractTo (buildEntries darwin home fs keychain) dirP) = some c))
  ∧ (∀ kc, darwin = true → keychain = some kc →
      flookup (dirP ++ [credsEntryName])
        (extractTo (buildEntries darwin home fs keychain) dirP) = some kc) := by
  intro darwin home fs keychain dirP
  constructor
  · intro item hmem
    simp only [BACKUP_PATHS, List.mem_cons, List.not_mem_nil, or_false] at hmem
    rcases hmem with rfl | rfl | rfl
    · constructor
      · intro c hfs
        rw [flookup_extract]
        simp only [buildEntries, BACKUP_PATHS, List.flatMap_cons, List.flatMap_nil,
          List.append_nil, flookup_append, hfs]
        simp [sourceEntries, flookup]
      · intro files rel c hfs hnd hm
        rw [flookup_extract]
        simp only [buildEntries, BACKUP_PATHS, List.flatMap_cons, List.flatMap_nil,
          List.append_nil, flookup_append, hfs]
        simp only [sourceEntries, flookup_map_cons]
        rw [flookup_mem_nodup hm hnd]
        rfl
    · constructor
      · intro c hfs
        rw [flookup_extract]
        simp only [buildEntries, BACKUP_PATHS, List.flatMap_cons, List.flatMap_nil,
          List.append_nil, flookup_append, hfs]
        rw [flookup_sourceEntries_ne (fun rest => cons_ne_of_ne (by decide) _ rest)]
        simp [sourceEntries, flookup]
      · intro files rel c hfs hnd hm
        rw [flookup_extract]
        simp only [buildEntries, BACKUP_PATHS, List.flatMap_cons, List.flatMap_nil,
          List.append_nil, flookup_append, hfs]
        rw [flookup_sourceEntries_ne (fun rest => cons_ne_of_ne (by decide) _ rest)]
        simp only [sourceEntries, flookup_map_cons, Option.none_or]
        rw [flookup_mem_nodup hm hnd]
        rfl
    · constructor
      · intro c hfs
        rw [flookup_extract]
        simp only [buildEntries, BACKUP_PATHS, List.flatMap_cons, List.flatMap_nil,
          List.append_nil, flookup_append, hfs]
        rw [flookup_sourceEntries_ne (fun rest => cons_ne_of_ne (by decide) _ rest),
            flookup_sourceEntries_ne (fun rest => cons_ne_of_ne (by decide) _ rest)]
        simp [sourceEntries, flookup]
      · intro files rel c hfs hnd hm
        rw [flookup_extract]
        simp only [buildEntries, BACKUP_PATHS, List.flatMap_cons, List.flatMap_nil,
          List.append_nil, flookup_append, hfs]
        rw [flookup_sourceEntries_ne (fun rest => cons_ne_of_ne (by decide) _ rest),
            flookup_sourceEntries_ne (fun rest => cons_ne_of_ne (by decide) _ rest)]
        simp only [sourceEntries, flookup_map_cons, Option.none_or]
        rw [flookup_mem_nodup hm hnd]
        rfl
  · intro kc hdar hkc
    subst hdar hkc
    rw [flookup_extract]
    simp only [buildEntries, BACKUP_PATHS, List.flatMap_cons, List.flatMap_nil,
      List.append_nil, flookup_append]
    rw [flookup_sourceEntries_ne (fun rest => cons_ne_of_ne (by decide) _ rest),
        flookup_sourceEntries_ne (fun rest => cons_ne_of_ne (by decide) _ rest),
        flookup_sourceEntries_ne (fun rest => cons_ne_of_ne (by decide) _ rest)]
    simp [flookup, credsEntryName]

/-- Claim C5 witness: the round-trip theorem applied to a concrete
state: the directory file, the configuration file and the virtual
credentials entry are all reproduced under the destination
directory. -/
theorem c5_roundtrip_witness :
    flookup (["d"] ++ [".claude.json"])
      (extractTo (buildEntries true ("/h") exFS (some ("K"))) ["d"]) = some ("B")
  ∧ flookup (["d"] ++ ".claude" :: ["s.json"])
      (extractTo (buildEntries true ("/h") exFS (some ("K"))) ["d"]) = some ("A")
  ∧ flookup (["d"] ++ [credsEntryName])
      (extractTo (buildEntries true ("/h") exFS (some ("K"))) ["d"]) = some ("K") := by
  refine ⟨?_, ?_, ?_⟩
  · exact ((c5_roundtrip true ("/h") exFS (some ("K")) ["d"]).1
      ⟨"~/.claude.json", ".claude.json"⟩ (by decide)).1 ("B") rfl
  · exact ((c5_roundtrip true ("/h") exFS (some ("K")) ["d"]).1
      ⟨"~/.claude", ".claude"⟩ (by decide)).2 [(["s.json"], ("A"))] ["s.json"] ("A")
      rfl (by decide) (by decide)
  · exact (c5_roundtrip true ("/h") exFS (some ("K")) ["d"]).2 ("K") rfl rfl

/-- Claim C6 counterexample: with no backup path existing and no
credential source, the silent watch-mode save still emits an upload
(of an empty archive) instead of failing, and the interactive store
fails at the verification gate with VerificationFailed, not with the
NoContent condition the claim names. -/
theorem c6_counterexample :
    saveProfileSilentRun false ("/h") (fun _ => SourceState.absent) none
      = [StoreAct.upload []]
  ∧ (saveProfileRun false ("/h") (fun _ => SourceState.absent) none).2
      = some (StoreErr.verificationFailed
          ["Missing required file: Claude credentials (file)",
           "Missing required file: Claude configuration"]) := by
  decide

/-- Claim C6 amended: when no backup path exists and no credential
source is present, the interactive store fails at the verification
gate (before the NoContent check, which is unreachable once
verification passed) and uploads nothing; the silent watch-mode save
performs no such check and always emits the upload of whatever archive
was built, even an empty one. -/
theorem c6_amended : ∀ (darwin : Bool) (home : String) (fs : String → SourceState)
    (keychain : Option Bytes),
    (hasFiles darwin home fs keychain = false →
       saveProfileRun darwin home fs keychain
         = ([], some (StoreErr.verificationFailed
             (verifyLocalFiles darwin home fs keychain).issues)))
  ∧ saveProfileSilentRun darwin home fs keychain
      = [StoreAct.upload (buildEntries darwin home fs keychain)] := by
  intro darwin home fs keychain
  refine ⟨?_, rfl⟩
  intro h
  have hjson : (fs (expandHome home "~/.claude.json")).isPresent = false := by
    simp only [hasFiles, BACKUP_PATHS, List.any_cons, List.any_nil,
      Bool.or_eq_false_iff] at h
    exact h.1.2.1
  have hvalid : (verifyLocalFiles darwin home fs keychain).valid = false := by
    simp only [verifyLocalFiles, localChecks, List.foldl_cons, List.foldl_nil]
    rw [localCheckStep_backup_valid, localCheckStep_config_invalid _ _ _ _ hjson]
  simp [saveProfileRun, hvalid]

/-- Claim C6 witness: the amended theorem applied to the empty local
state: the interactive store uploads nothing and fails with the issue
list of the verification gate. -/
theorem c6_amended_witness :
    (saveProfileRun false ("/h") (fun _ => SourceState.absent) none).1 = []
  ∧ (saveProfileRun false ("/h") (fun _ => SourceState.absent) none).2
      = some (StoreErr.verificationFailed
          (verifyLocalFiles false ("/h") (fun _ => SourceState.absent) none).issues) := by
  have h := (c6_amended false ("/h") (fun _ => SourceState.absent) none).1 (by decide)
  exact ⟨by rw [h], by rw [h]⟩

/-- Claim C7 counterexample: on darwin, a tree holding the virtual
macOS credentials entry and the configuration entry but no plain
credentials file passes the restore-gate verification, yet the
standalone verify command reports the essential files as missing: the
standalone command does not apply the platform-conditional
essentials. -/
theorem c7_counterexample :
    (verifyDownloadedProfile true true [([credsEntryName], "K"), ([".claude.json"], "B")]).valid
      = true
  ∧ verifyProfileEssentials [([credsEntryName], "K"), ([".claude.json"], "B")] = false := by
  decide

/-- Claim C7 amended: the restore-gate verification behaves as the
claim says: it is valid exactly when extraction succeeded, the
platform-essential credential entry is present (the virtual macOS
entry on darwin, the plain credentials file elsewhere) and the
configuration entry is present, and a missing platform-essential entry
is reported in the issue list; but the standalone verify command does
NOT apply the platform-conditional essentials: it unconditionally
requires the plain credentials file and the configuration file and
ignores the virtual macOS entry. -/
theorem c7_amended : ∀ (darwin extractOk : Bool) (tree : List (List String × Bytes)),
    ((verifyDownloadedProfile darwin extractOk tree).valid
       = (extractOk
          && (if darwin then (flookup [credsEntryName] tree).isSome
              else (flookup [".claude", ".credentials.json"] tree).isSome)
          && (flookup [".claude.json"] tree).isSome))
  ∧ (darwin = true → extractOk = true → flookup [credsEntryName] tree = none →
       ("Missing: Claude credentials (macOS)")
         ∈ (verifyDownloadedProfile darwin extractOk tree).issues)
  ∧ (darwin = false → extractOk = true →
       flookup [".claude", ".credentials.json"] tree = none →
       ("Missing: Claude credentials (file)")
         ∈ (verifyDownloadedProfile darwin extractOk tree).issues)
  ∧ (verifyProfileEssentials tree
       = ((flookup [".claude", ".credentials.json"] tree).isSome
          && (flookup [".claude.json"] tree).isSome)) := by
  intro darwin extractOk tree
  refine ⟨?_, ?_, ?_, ?_⟩
  · cases extractOk
    · simp [verifyDownloadedProfile]
    · cases darwin <;>
        simp [verifyDownloadedProfile, dlChecks, List.foldl_cons, List.foldl_nil,
          dlCheckStep_valid, Bool.and_assoc]
  · intro hd he hn
    subst hd; subst he
    simp only [verifyDownloadedProfile, Bool.not_true, Bool.false_eq_true, if_false,
      dlChecks, List.foldl_cons, List.foldl_nil]
    exact dlCheckStep_issues_mono _ _ _
      (dlCheckStep_issues_add _ _ ⟨[credsEntryName], true, "Claude credentials (macOS)"⟩ rfl hn)
  · intro hd he hn
    subst hd; subst he
    simp only [verifyDownloadedProfile, Bool.not_true, Bool.false_eq_true, if_false,
      dlChecks, List.foldl_cons, List.foldl_nil]
    exact dlCheckStep_issues_mono _ _ _
      (dlCheckStep_issues_mono _ _ _
        (dlCheckStep_issues_add _ _
          ⟨[".claude", ".credentials.json"], !false, "Claude credentials (file)"⟩ rfl hn))
  · simp [verifyProfileEssentials, vpChecks, List.foldl_cons, List.foldl_nil, vpCheckStep_eq]

/-- Claim C7 witness: the amended theorem applied at concrete trees: a
tree missing the macOS entry on darwin is invalid with the naming
issue; a tree missing the plain credentials file off darwin gets its
naming issue; a tree with both unconditional essentials passes the
standalone command. -/
theorem c7_amended_witness :
    (verifyDownloadedProfile true true [([".claude.json"], "B")]).valid = false
  ∧ ("Missing: Claude credentials (macOS)")
      ∈ (verifyDownloadedProfile true true [([".claude.json"], "B")]).issues
  ∧ ("Missing: Claude credentials (file)")
      ∈ (verifyDownloadedProfile false true [([credsEntryName], "K")]).issues
  ∧ verifyProfileEssentials [([".claude", ".credentials.json"], "C"), ([".claude.json"], "B")]
      = true := by
  refine ⟨?_, ?_, ?_, ?_⟩
  · rw [(c7_amended true true [([".claude.json"], "B")]).1]; decide
  · exact (c7_amended true true [([".claude.json"], "B")]).2.1 rfl rfl (by decide)
  · exact (c7_amended false true [([credsEntryName], "K")]).2.2.1 rfl rfl (by decide)
  · rw [(c7_amended false true
      [([".claude", ".credentials.json"], "C"), ([".claude.json"], "B")]).2.2.2]
    decide

/-- Claim C8: a failed verification gate blocks the destructive step
entirely and surfaces the issue list: a store whose local verification
fails performs no upload (the source exits before even creating the
staging directory) and returns the issues; a restore whose downloaded
archive fails verification returns the issues and leaves the local
file system untouched; and a failed extraction always makes the
restore gate invalid. -/
theorem c8_gates : ∀ (darwin : Bool) (home : String) (fs : String → SourceState)
    (keychain : Option Bytes) (homeP : List String) (lfs : List String → Option FNode)
    (tree : List (List String × Bytes)) (extractOk : Bool),
    ((verifyLocalFiles darwin home fs keychain).valid = false →
       saveProfileRun darwin home fs keychain
         = ([], some (StoreErr.verificationFailed
             (verifyLocalFiles darwin home fs keychain).issues)))
  ∧ ((verifyDownloadedProfile darwin extractOk tree).valid = false →
       (restoreRun darwin homeP lfs tree extractOk).1 = lfs
     ∧ (restoreRun darwin homeP lfs tree extractOk).2
         = some (StoreErr.verificationFailed
             (verifyDownloadedProfile darwin extractOk tree).issues))
  ∧ (verifyDownloadedProfile darwin false tree).valid = false := by
  intro darwin home fs keychain homeP lfs tree extractOk
  refine ⟨?_, ?_, ?_⟩
  · intro h
    simp [saveProfileRun, h]
  · intro h
    refine ⟨?_, ?_⟩ <;> simp [restoreRun, h]
  · simp [verifyDownloadedProfile]

/-- Claim C8 witness: the gate theorem applied at concrete inputs: an
empty local state blocks the store with its issue list, and a failed
extraction blocks the restore leaving the local file system equal to
what it was. -/
theorem c8_gates_witness :
    saveProfileRun false ("/h") (fun _ => SourceState.absent) none
      = ([], some (StoreErr.verificationFailed
          (verifyLocalFiles false ("/h") (fun _ => SourceState.absent) none).issues))
  ∧ (restoreRun false ["h"] (fun _ => none) [] false).1 = (fun _ => (none : Option FNode))
  ∧ (restoreRun false ["h"] (fun _ => none) [] false).2
      = some (StoreErr.verificationFailed ["Failed to extract profile archive"]) := by
  refine ⟨?_, ?_, ?_⟩
  · exact (c8_gates false ("/h") (fun _ => SourceState.absent) none ["h"] (fun _ => none)
      [] false).1 (by decide)
  · exact ((c8_gates false ("/h") (fun _ => SourceState.absent) none ["h"] (fun _ => none)
      [] false).2.1 (by decide)).1
  · exact ((c8_gates false ("/h") (fun _ => SourceState.absent) none ["h"] (fun _ => none)
      [] false).2.1 (by decide)).2

/-- Claim C9: the change-detection hash is deterministic and
independent of directory traversal order: two scans of the same
on-disk state whose directory listings are permutations of each other
produce the same digest, because the listing is sorted before both the
joined path fold and the content fold. -/
theorem c9_hash_deterministic : ∀ (darwin : Bool) (home : String)
    (st1 st2 : String → HSource) (keychain : Option String),
    (∀ item ∈ BACKUP_PATHS,
       HSource.equiv (st1 (expandHome home item.source)) (st2 (expandHome home item.source))) →
    calculateFilesHash darwin home st1 keychain = calculateFilesHash darwin home st2 keychain := by
  intro darwin home st1 st2 kc h
  have h1 := h ⟨"~/.claude", ".claude"⟩ (by simp [BACKUP_PATHS])
  have h2 := h ⟨"~/.claude.json", ".claude.json"⟩ (by simp [BACKUP_PATHS])
  have h3 := h ⟨"~/.claude.json.backup", ".claude.json.backup"⟩ (by simp [BACKUP_PATHS])
  simp only [calculateFilesHash, BACKUP_PATHS, List.flatMap_cons, List.flatMap_nil,
    List.append_nil]
  rw [sourceChunks_congr h1, sourceChunks_congr h2, sourceChunks_congr h3]

/-- Claim C9 witness: the determinism theorem applied to two concrete
scans of the same state whose directory listing arrives in opposite
orders: the digests are equal. -/
theorem c9_hash_deterministic_witness :
    calculateFilesHash false ("/h") exState1 none
      = calculateFilesHash false ("/h") exState2 none := by
  refine c9_hash_deterministic false ("/h") exState1 exState2 none ?_
  intro item hmem
  simp only [BACKUP_PATHS, List.mem_cons, List.not_mem_nil, or_false] at hmem
  rcases hmem with rfl | rfl | rfl
  · have e1 : exState1 (expandHome ("/h") ("~/.claude"))
        = HSource.dir ["b.json", "a.json"] exContent := rfl
    have e2 : exState2 (expandHome ("/h") ("~/.claude"))
        = HSource.dir ["a.json", "b.json"] exContent := rfl
    rw [e1, e2]
    exact ⟨by decide, rfl⟩
  · exact rfl
  · exact trivial

/-- Claim C10 counterexample: the claim says restore only copies
archive entries over their configured local paths and leaves every
file without a corresponding entry unchanged.  With the configuration
directory already existing locally, cp -r copies the extracted
directory INTO it: the entry for the path dot-claude slash x is not
written to its configured local path at all (the lookup there yields
none), while a pre-existing local file one level deeper, which
corresponds to no archive entry, is overwritten. -/
theorem c10_counterexample :
    (let lfs : List String → Option FNode := fun p =>
       if p = ["h", ".claude"] then some FNode.dir
       else if p = ["h", ".claude", ".claude", "x"] then some (FNode.file ("OLD"))
       else none
     let tree : List (List String × Bytes) :=
       [([".claude", "x"], ("NEW")), ([".claude", ".credentials.json"], ("C")),
        ([".claude.json"], ("J"))]
     restoreCopy ["h"] lfs tree ["h", ".claude", "x"] = none
   ∧ restoreCopy ["h"] lfs tree ["h", ".claude", ".claude", "x"] = some (FNode.file ("NEW"))
   ∧ lfs ["h", ".claude", ".claude", "x"] = some (FNode.file ("OLD"))) := by
  decide

/-- Claim C10 amended: restore never deletes a local file, and any
local path outside the computed copy-target set is byte for byte
unchanged; but the copy targets are not always the configured local
paths: a directory entry lands under the destination directory when it
does not yet exist, and one level deeper (under the destination slash
the entry basename) when the destination directory already exists, in
which case a pre-existing file at such a nested target may be
overwritten. -/
theorem c10_amended : ∀ (home : List String) (lfs : List String → Option FNode)
    (tree : List (List String × Bytes)) (p : List String),
    ((∀ e ∈ BACKUP_PATHS.flatMap (cpTargets home lfs tree), e.1 ≠ p) →
       restoreCopy home lfs tree p = lfs p)
  ∧ (∀ c, lfs p = some (FNode.file c) →
       ∃ b, restoreCopy home lfs tree p = some (FNode.file b)) := by
  intro home lfs tree p
  constructor
  · intro h
    simp [restoreCopy, writeAll, flookup_eq_none h]
  · intro c hc
    cases hw : flookup p (BACKUP_PATHS.flatMap (cpTargets home lfs tree)) with
    | none => exact ⟨c, by simp [restoreCopy, writeAll, hw, hc]⟩
    | some b => exact ⟨b, by simp [restoreCopy, writeAll, hw]⟩

/-- Claim C10 witness: the amended theorem applied at a concrete
state: a local file outside the copy targets is unchanged by the
restore, and a pre-existing file is still a file afterwards. -/
theorem c10_amended_witness :
    (let lfs : List String → Option FNode := fun p =>
       if p = ["h", ".claude"] then some FNode.dir
       else if p = ["h", "keep.txt"] then some (FNode.file ("KEEP"))
       else none
     let tree : List (List String × Bytes) := [([".claude", "x"], ("NEW"))]
     restoreCopy ["h"] lfs tree ["h", "keep.txt"] = lfs ["h", "keep.txt"]
   ∧ ∃ b, restoreCopy ["h"] lfs tree ["h", "keep.txt"] = some (FNode.file b)) := by
  refine ⟨?_, ?_⟩
  · exact (c10_amended ["h"] _ [([".claude", "x"], ("NEW"))] ["h", "keep.txt"]).1 (by decide)
  · exact (c10_amended ["h"] _ [([".claude", "x"], ("NEW"))] ["h", "keep.txt"]).2 ("KEEP")
      (by decide)

end ClaudeProfiles
